import Mathlib

/- Shallow embedding of the youterm smart-queue / auto-discovery core:
   src/stream_cli/smart_queue.py, src/stream_cli/discovery.py and
   src/stream_cli/auto_discovery.py.  Python floats are modelled as
   rationals, dicts as insertion-ordered association lists, sets as
   Finsets, and the random module as an explicit oracle of choice
   streams over which all theorems quantify. -/

namespace Youterm

/-- Music metadata attached to a track: the fields of MusicMetadata
(discovery.py) that the queue and scheduler read. The empty artist
string models Python's falsy metadata.artist. -/
structure Meta where
  artist : String
  normalized_title : String
deriving DecidableEq

/-- Track record as built by discovery.py search results and consumed by
smart_queue.py / auto_discovery.py. id is none when the Python dict
holds None; metadata is none when no MusicMetadata object is attached. -/
structure Track where
  id : Option String
  title : String
  channel : String
  duration : Int
  quality_score : ℚ
  metadata : Option Meta
  audio_url : String := ""
  auto_discovered : Bool := false
deriving DecidableEq

/-- Python's pervasive test `metadata and metadata.artist`: the artist of
a track when metadata is present and the artist string is non-empty. -/
def Track.knownArtist (t : Track) : Option String :=
  match t.metadata with
  | some m => if m.artist = "" then none else some m.artist
  | none => none

/-- Placeholder track used as the default of total selection helpers on
branches the source guarantees are unreachable (non-empty lists). -/
def dummyTrack : Track :=
  { id := none, title := "", channel := "", duration := 0,
    quality_score := 0, metadata := none }

instance : Inhabited Track := ⟨dummyTrack⟩

/-- Character bigrams of a string as a finite set, mirroring get_bigrams
inside MusicMetadata._string_similarity (discovery.py lines 77-78). -/
def bigrams : List Char → Finset (Char × Char)
  | a :: b :: rest => insert (a, b) (bigrams (b :: rest))
  | _ => ∅

/-- MusicMetadata._string_similarity (discovery.py lines 72-91): Jaccard
index of the character-bigram sets, with the source's early returns: any
empty input string gives 0.0 before bigrams are computed; two non-empty
strings whose bigram sets are both empty give 1.0; exactly one empty
bigram set gives 0.0. -/
def string_similarity (s1 s2 : String) : ℚ :=
  if s1 = "" ∨ s2 = "" then 0
  else
    let b1 := bigrams s1.data
    let b2 := bigrams s2.data
    if b1 = ∅ ∧ b2 = ∅ then 1
    else if b1 = ∅ ∨ b2 = ∅ then 0
    else if 0 < (b1 ∪ b2).card then
      ((b1 ∩ b2).card : ℚ) / ((b1 ∪ b2).card : ℚ)
    else 0

theorem string_similarity_comm (a b : String) :
    string_similarity a b = string_similarity b a := by
  unfold string_similarity
  by_cases h1 : a = ""
  · by_cases h2 : b = "" <;> simp [h1, h2]
  · by_cases h2 : b = ""
    · simp [h1, h2]
    · by_cases e1 : bigrams a.data = ∅ <;> by_cases e2 : bigrams b.data = ∅ <;>
        simp [h1, h2, e1, e2, Finset.inter_comm, Finset.union_comm]

theorem string_similarity_self (a : String) (ha : a ≠ "") :
    string_similarity a a = 1 := by
  unfold string_similarity
  by_cases hb : bigrams a.data = ∅
  · simp [ha, hb]
  · have hnon := Finset.nonempty_of_ne_empty hb
    have hcard : 0 < (bigrams a.data).card := Finset.card_pos.mpr hnon
    have h1 : ¬ (bigrams a.data = ∅ ∧ bigrams a.data = ∅) := by simp [hb]
    have h2 : ¬ (bigrams a.data = ∅ ∨ bigrams a.data = ∅) := by simp [hb]
    simp only [ha, or_self, if_false, h1, h2, hb, Finset.inter_self,
      Finset.union_self, hcard, if_true]
    have hq : ((bigrams a.data).card : ℚ) ≠ 0 :=
      Nat.cast_ne_zero.mpr (Finset.card_ne_zero.mpr hnon)
    exact div_self hq

theorem string_similarity_empty_left (b : String) :
    string_similarity "" b = 0 := by
  unfold string_similarity
  simp

theorem string_similarity_empty_right (a : String) :
    string_similarity a "" = 0 := by
  unfold string_similarity
  simp

/-- C5: the string-similarity function is symmetric and similarity of a
non-empty string with itself is 1.0; but an empty string compared with
anything, the other empty string included, scores 0.0 - the source's
early return `if not s1 or not s2: return 0.0` fires before the
empty-bigram-sets branch that would return 1.0, so empty vs empty is
0.0, not 1.0 as claimed. -/
theorem similarity_symm_self_empty :
    (∀ a b : String, string_similarity a b = string_similarity b a) ∧
    (∀ a : String, a ≠ "" → string_similarity a a = 1) ∧
    (∀ b : String, string_similarity "" b = 0 ∧ string_similarity b "" = 0) :=
  ⟨string_similarity_comm, string_similarity_self,
   fun b => ⟨string_similarity_empty_left b, string_similarity_empty_right b⟩⟩

/-- C5 counterexample: the similarity of two empty strings is 0.0, not
the claimed 1.0. -/
theorem similarity_empty_empty_ne_one :
    string_similarity "" "" = 0 ∧ string_similarity "" "" ≠ 1 := by
  constructor
  · rfl
  · intro h
    simp [string_similarity] at h

/-- C5 witness: the amended similarity facts evaluated at concrete
strings. -/
theorem similarity_symm_self_empty_witness :
    string_similarity "ab" "ab" = 1 ∧
    string_similarity "ab" "cd" = string_similarity "cd" "ab" :=
  ⟨similarity_symm_self_empty.2.1 "ab" (by decide),
   similarity_symm_self_empty.1 "ab" "cd"⟩

/-- Python str.lower applied characterwise (ASCII range, which covers
every keyword literal the source compares against). -/
def strLower (s : String) : String := ⟨s.data.map Char.toLower⟩

/-- Contiguous-sublist test on character lists. -/
def listInfix (kw : List Char) : List Char → Bool
  | [] => kw.isEmpty
  | c :: rest => kw.isPrefixOf (c :: rest) || listInfix kw rest

/-- Python's substring test `kw in s` on lower-cased strings. -/
def strContains (s kw : String) : Bool := listInfix kw.data s.data

/-- Long-form keyword list of TrackQualityFilter.score_track
(discovery.py lines 122-123). -/
def long_form_keywords : List String :=
  ["sahasranamam", "bhajan", "devotional", "mantra", "chant", "classical",
   "full version", "complete", "interview", "talk", "lecture", "discussion",
   "episode", "audiobook", "documentary", "speech"]

/-- Long-form detection of score_track (discovery.py lines 126-130): a
long-form title keyword, a podcast-ish channel keyword, or a truthy
duration over 900 seconds. Python's `duration and duration > 900` is
truthy exactly when duration is non-zero and greater than 900. -/
def is_long_form (title_lower channel_lower : String) (duration : Int) : Bool :=
  long_form_keywords.any (fun kw => strContains title_lower kw) ||
  (["podcast", "interview", "talk", "radio", "show", "cast"].any
      (fun kw => strContains channel_lower kw) ||
    decide (duration ≠ 0 ∧ 900 < duration))

/-- Duration adjustment of score_track (discovery.py lines 132-148).
Every branch guards with Python's truthiness test `duration and ...`,
so duration 0 skips all branches while a negative duration satisfies
the `duration and duration < 60` branch. -/
def duration_adjust (isLong : Bool) (duration : Int) : ℚ :=
  if isLong then
    if duration ≠ 0 ∧ 300 ≤ duration then 1/5
    else if duration ≠ 0 ∧ 120 ≤ duration ∧ duration < 300 then 1/10
    else if duration ≠ 0 ∧ duration < 60 then -(3/10)
    else 0
  else
    if duration ≠ 0 ∧ 120 ≤ duration ∧ duration ≤ 480 then 1/5
    else if duration ≠ 0 ∧ duration < 60 then -(3/10)
    else if duration ≠ 0 ∧ 600 < duration then -(1/10)
    else 0

/-- Channel-name adjustment of score_track (discovery.py lines 159-163). -/
def channel_adjust (channel_lower : String) : ℚ :=
  if ["official", "records", "music"].any (fun w => strContains channel_lower w) then 1/10
  else if ["compilation", "mix", "covers"].any (fun w => strContains channel_lower w) then -(1/10)
  else 0

/-- View-count adjustment of score_track (discovery.py lines 165-170). -/
def view_adjust (view_count : Int) : ℚ :=
  if 0 < view_count then
    if 1000000 < view_count then 1/20
    else if view_count < 1000 then -(1/20)
    else 0
  else 0

/-- TrackQualityFilter.score_track (discovery.py lines 114-172). The
number of LOW_QUALITY_PATTERNS (resp. HIGH_QUALITY_PATTERNS) regular
expressions matching the lowered title is passed in as nLow (resp.
nHigh): the regex engine is external to this model and every theorem
below quantifies over all match counts, covering whatever counts the
source computes for the given title; each low match subtracts 0.15 and
each high match adds 0.15, exactly as the source's two loops do. All
other tests in the source are plain substring or integer comparisons
and are modelled exactly, in source order, from the base score 0.5,
with the final clamp to the interval from 0 to 1. -/
def score_track (nLow nHigh : Nat) (title channel : String)
    (duration : Int) (view_count : Int) : ℚ :=
  let title_lower := strLower title
  let channel_lower := strLower channel
  let s1 : ℚ := 1/2 + duration_adjust (is_long_form title_lower channel_lower duration) duration
  let s2 := s1 - (3/20) * nLow + (3/20) * nHigh
  let s3 := s2 + channel_adjust channel_lower
  let s4 := s3 + view_adjust view_count
  max 0 (min 1 s4)

/-- C6: the quality scorer is total - it is a Lean function defined for
every title, channel, duration (0 and negatives included) and
popularity value, and for every regex match count - and its result is
always inside the closed interval from 0 to 1. -/
theorem score_track_total_in_unit_interval
    (nLow nHigh : Nat) (title channel : String) (duration view_count : Int) :
    0 ≤ score_track nLow nHigh title channel duration view_count ∧
    score_track nLow nHigh title channel duration view_count ≤ 1 := by
  unfold score_track
  refine ⟨le_max_left 0 _, max_le (by norm_num) (min_le_left 1 _)⟩

theorem duration_adjust_zero (b : Bool) : duration_adjust b 0 = 0 := by
  cases b <;> simp [duration_adjust]

theorem duration_adjust_neg (b : Bool) (d : Int) (hd : d < 0) :
    duration_adjust b d = -(3/10) := by
  cases b <;> unfold duration_adjust <;> split_ifs <;>
    first
      | rfl
      | (exfalso; omega)

/-- Score contributions of score_track other than the duration
adjustment and the clamp, used to state how duration 0 and negative
durations differ. -/
def score_unclamped_nodur (nLow nHigh : Nat) (channel : String) (view_count : Int) : ℚ :=
  1/2 - (3/20) * nLow + (3/20) * nHigh + channel_adjust (strLower channel) + view_adjust view_count

/-- C7 (amended): duration 0 is treated as unknown and skips the whole
duration adjustment, but a negative duration is truthy in Python and
falls into the `duration and duration < 60` branch, receiving the
short-clip penalty of 0.3: the score at duration 0 is the clamp of the
duration-free score, while at any negative duration it is the clamp of
that score minus 0.3. -/
theorem score_track_zero_vs_negative_duration :
    (∀ (nLow nHigh : Nat) (title channel : String) (v : Int),
      score_track nLow nHigh title channel 0 v
        = max 0 (min 1 (score_unclamped_nodur nLow nHigh channel v))) ∧
    (∀ (nLow nHigh : Nat) (title channel : String) (v d : Int), d < 0 →
      score_track nLow nHigh title channel d v
        = max 0 (min 1 (score_unclamped_nodur nLow nHigh channel v - 3/10))) := by
  constructor
  · intro nLow nHigh title channel v
    simp only [score_track, score_unclamped_nodur, duration_adjust_zero]
    congr 2
    ring
  · intro nLow nHigh title channel v d hd
    simp only [score_track, score_unclamped_nodur, duration_adjust_neg _ d hd]
    congr 2
    ring

/-- C7 counterexample: with empty title and channel, no pattern matches
and no popularity signal, duration 0 scores 0.5 but duration -5 scores
0.2 - zero and negative durations do not yield the same score. -/
theorem score_track_neg_duration_differs :
    score_track 0 0 "" "" 0 0 = 1/2 ∧
    score_track 0 0 "" "" (-5) 0 = 1/5 ∧
    score_track 0 0 "" "" (-5) 0 ≠ score_track 0 0 "" "" 0 0 := by
  have hc : channel_adjust (strLower "") = 0 := by decide
  have hv : view_adjust 0 = 0 := by decide
  have e1 : score_track 0 0 "" "" 0 0 = 1/2 := by
    simp only [score_track, duration_adjust_zero, hc, hv, Nat.cast_zero]
    norm_num [max_def, min_def]
  have e2 : score_track 0 0 "" "" (-5) 0 = 1/5 := by
    simp only [score_track, duration_adjust_neg _ (-5) (by norm_num), hc, hv, Nat.cast_zero]
    norm_num [max_def, min_def]
  exact ⟨e1, e2, by rw [e1, e2]; norm_num⟩

/-- C7 witness: the amended duration equalities evaluated at duration 0
and duration -5. -/
theorem score_track_zero_vs_negative_duration_witness :
    score_track 0 0 "" "" 0 0 = max 0 (min 1 (score_unclamped_nodur 0 0 "" 0)) ∧
    score_track 0 0 "" "" (-5) 0 = max 0 (min 1 (score_unclamped_nodur 0 0 "" 0 - 3/10)) :=
  ⟨score_track_zero_vs_negative_duration.1 0 0 "" "" 0,
   score_track_zero_vs_negative_duration.2 0 0 "" "" 0 (-5) (by decide)⟩

/-- Per-artist record held in ListeningHistory.history under the
"artists" key (smart_queue.py lines 111-115). -/
structure ArtistStats where
  play_count : Nat
  preference_score : ℚ
deriving DecidableEq

/-- Per-track record held in ListeningHistory.history under the
"tracks" key (smart_queue.py lines 92-100). -/
structure TrackStats where
  play_count : Nat
  skip_count : Nat
  last_played : Int
  total_duration_played : Int
  title : String
  artist : String
deriving DecidableEq

/-- In-memory ListeningHistory state (smart_queue.py lines 19-183).
Python dicts are modelled as insertion-ordered association lists; the
default preferences that record_skip and get_track_score read
(preferred_duration_range of 120 to 360, skip_threshold 0.3) are
carried as fields with those defaults. -/
structure History where
  tracks : List (String × TrackStats)
  artists : List (String × ArtistStats)
  preferred_min : Int := 120
  preferred_max : Int := 360
  skip_threshold : ℚ := 3/10
deriving DecidableEq

/-- Python dict read `d.get(k)` on an insertion-ordered assoc list. -/
def lookupA {α : Type} (k : String) : List (String × α) → Option α
  | [] => none
  | (k2, v) :: rest => if k2 = k then some v else lookupA k rest

/-- Python dict write `d[k] = f(d[k])` for an existing key: the entry
keeps its position. -/
def modifyA {α : Type} (k : String) (f : α → α) : List (String × α) → List (String × α)
  | [] => []
  | (k2, v) :: rest => if k2 = k then (k2, f v) :: rest else (k2, v) :: modifyA k f rest

/-- Python's `if k not in d: d[k] = dflt` idiom: a new key is appended
in insertion order, an existing key is untouched. -/
def setDefaultA {α : Type} (k : String) (dflt : α) (l : List (String × α)) : List (String × α) :=
  match lookupA k l with
  | some _ => l
  | none => l ++ [(k, dflt)]

/-- Python dict assignment `d[k] = v` whether or not the key exists. -/
def setA {α : Type} (k : String) (v : α) (l : List (String × α)) : List (String × α) :=
  match lookupA k l with
  | some _ => modifyA k (fun _ => v) l
  | none => l ++ [(k, v)]

/-- ListeningHistory.record_play (smart_queue.py lines 80-122). now is
time.time(); duration_played 0 stands for Python's falsy None/0, which
skips the accumulation. The artist preference is nudged up by 0.01,
clamped at 1.0. -/
def record_play (h : History) (t : Track) (duration_played : Int) (now : Int) : History :=
  match t.id with
  | none => h
  | some tid =>
    let artist := match t.metadata with
      | some m => m.artist
      | none => ""
    let tracks1 := setDefaultA tid
      { play_count := 0, skip_count := 0, last_played := 0,
        total_duration_played := 0, title := t.title, artist := artist } h.tracks
    let tracks2 := modifyA tid (fun st =>
      { st with play_count := st.play_count + 1, last_played := now,
                total_duration_played :=
                  if duration_played ≠ 0 then st.total_duration_played + duration_played
                  else st.total_duration_played }) tracks1
    let h1 := { h with tracks := tracks2 }
    if artist ≠ "" then
      let artists1 := setDefaultA artist { play_count := 0, preference_score := 1/2 } h1.artists
      let artists2 := modifyA artist (fun a =>
        { a with play_count := a.play_count + 1,
                 preference_score := min 1 (a.preference_score + 1/100) }) artists1
      { h1 with artists := artists2 }
    else h1

/-- ListeningHistory.record_skip (smart_queue.py lines 124-144): a no-op
unless the track id is already recorded; then the skip counter is
bumped and, when the track has a known artist, the played fraction is
under the skip threshold and the artist already has a preference entry,
that preference is nudged down by 0.02, clamped at 0.0. The source
reads `track.get("duration", 180)`, modelled by the always-present
duration field. -/
def record_skip (h : History) (t : Track) (time_played : Int) : History :=
  match t.id with
  | none => h
  | some tid =>
    match lookupA tid h.tracks with
    | none => h
    | some _ =>
      let tracks1 := modifyA tid (fun st => { st with skip_count := st.skip_count + 1 }) h.tracks
      let h1 := { h with tracks := tracks1 }
      match t.knownArtist with
      | some artist =>
        let track_duration := t.duration
        let skip_ratio : ℚ :=
          if 0 < track_duration then (time_played : ℚ) / (track_duration : ℚ) else 0
        if skip_ratio < h1.skip_threshold ∧ (lookupA artist h1.artists).isSome then
          { h1 with artists := modifyA artist (fun a =>
              { a with preference_score := max 0 (a.preference_score - 2/100) }) h1.artists }
        else h1
      | none => h1

/-- ListeningHistory.get_artist_preference (smart_queue.py lines
146-151): 0.5 for a falsy artist or a missing entry. -/
def get_artist_preference (h : History) (artist : String) : ℚ :=
  if artist = "" then 1/2
  else
    match lookupA artist h.artists with
    | some a => a.preference_score
    | none => 1/2

theorem lookupA_modifyA_self {α : Type} (k : String) (f : α → α) (l : List (String × α)) :
    lookupA k (modifyA k f l) = (lookupA k l).map f := by
  induction l with
  | nil => rfl
  | cons p rest ih =>
    obtain ⟨k2, v⟩ := p
    by_cases hk : k2 = k
    · simp [modifyA, lookupA, hk]
    · simp [modifyA, lookupA, hk, ih]

theorem setDefaultA_of_some {α : Type} (k : String) (d : α) (l : List (String × α)) (v : α)
    (h : lookupA k l = some v) : setDefaultA k d l = l := by
  unfold setDefaultA
  rw [h]

theorem knownArtist_spec (t : Track) (a : String) (h : t.knownArtist = some a) :
    a ≠ "" ∧ ∃ m, t.metadata = some m ∧ m.artist = a := by
  unfold Track.knownArtist at h
  cases hm : t.metadata with
  | none => rw [hm] at h; simp at h
  | some m =>
    rw [hm] at h
    by_cases he : m.artist = ""
    · simp [he] at h
    · simp [he] at h
      exact ⟨h ▸ he, m, rfl, h⟩

/-- State of the history after record_skip under the conditions of
smart_queue.py lines 130-142 (track already recorded, known artist with
a preference entry, below-threshold skip ratio). -/
theorem record_skip_state (h : History) (t : Track) (tid a : String)
    (st : TrackStats) (ast : ArtistStats) (tp : Int)
    (hid : t.id = some tid)
    (htr : lookupA tid h.tracks = some st)
    (hka : t.knownArtist = some a)
    (hast : lookupA a h.artists = some ast)
    (hdur : 0 < t.duration)
    (hratio : (tp : ℚ) / (t.duration : ℚ) < h.skip_threshold) :
    record_skip h t tp
      = { h with
          tracks := modifyA tid (fun x => { x with skip_count := x.skip_count + 1 }) h.tracks,
          artists := modifyA a (fun x =>
            { x with preference_score := max 0 (x.preference_score - 2/100) }) h.artists } := by
  have hs : (lookupA a h.artists).isSome = true := by rw [hast]; rfl
  simp only [record_skip, hid, htr, hka, hdur, if_true, hratio, hs, and_self, true_and,
    and_true, if_true]

/-- Preference score of an already-present artist after record_play
(smart_queue.py lines 109-120). -/
theorem record_play_pref (h : History) (t : Track) (tid a : String) (m : Meta)
    (ast : ArtistStats) (dp now : Int)
    (hid : t.id = some tid) (hm : t.metadata = some m) (hma : m.artist = a)
    (hane : a ≠ "")
    (hast : lookupA a h.artists = some ast) :
    get_artist_preference (record_play h t dp now) a
      = min 1 (ast.preference_score + 1/100) := by
  simp only [record_play, hid, hm, hma, hane, ne_eq, not_false_eq_true, if_true]
  unfold get_artist_preference
  simp only [hane, if_false]
  rw [setDefaultA_of_some a _ _ _ hast, lookupA_modifyA_self, hast]
  rfl

/-- C8 counterexample: on a fresh (empty) history, record_skip for a
track with a known artist and skip ratio 0.1 (below the 0.3 threshold)
changes nothing - the track has no history entry yet - so the artist's
preference score is not strictly lower after the skip. -/
theorem record_skip_fresh_history_no_decrease :
    (10 : ℚ) / 100 < 3/10 ∧
    get_artist_preference
      (record_skip { tracks := [], artists := [] }
        { id := some "t1", title := "Song", channel := "", duration := 100,
          quality_score := 1/2,
          metadata := some { artist := "A", normalized_title := "song" } } 10) "A"
      = 1/2 ∧
    get_artist_preference { tracks := [], artists := [] } "A" = 1/2 := by
  refine ⟨by norm_num, by rfl, by rfl⟩

/-- C8 (amended): when the skipped track already has a history entry and
its artist already has a preference entry with score s, 0.01 < s ≤ 1.0,
a below-threshold skip lowers the score to max(0, s - 0.02), strictly
below s (skips step down by 0.02, plays step up by only 0.01), and the
immediately following play raises it by the smaller increment, clamped
at 1.0, leaving it strictly below s and never above 1.0. -/
theorem skip_then_play_lowers_preference
    (h : History) (t : Track) (tid a : String)
    (st : TrackStats) (ast : ArtistStats) (tp dp now : Int)
    (hid : t.id = some tid)
    (htr : lookupA tid h.tracks = some st)
    (hka : t.knownArtist = some a)
    (hast : lookupA a h.artists = some ast)
    (hdur : 0 < t.duration)
    (hratio : (tp : ℚ) / (t.duration : ℚ) < h.skip_threshold)
    (hlo : 1/100 < ast.preference_score)
    (hhi : ast.preference_score ≤ 1) :
    get_artist_preference (record_skip h t tp) a
        = max 0 (ast.preference_score - 2/100) ∧
    get_artist_preference (record_skip h t tp) a < ast.preference_score ∧
    get_artist_preference (record_play (record_skip h t tp) t dp now) a
        = min 1 (get_artist_preference (record_skip h t tp) a + 1/100) ∧
    get_artist_preference (record_play (record_skip h t tp) t dp now) a
        < ast.preference_score ∧
    get_artist_preference (record_play (record_skip h t tp) t dp now) a ≤ 1 := by
  obtain ⟨hane, m, hm, hma⟩ := knownArtist_spec t a hka
  have e2 := record_skip_state h t tid a st ast tp hid htr hka hast hdur hratio
  have hlook : lookupA a (record_skip h t tp).artists
      = some { ast with preference_score := max 0 (ast.preference_score - 2/100) } := by
    rw [e2]
    dsimp only
    rw [lookupA_modifyA_self, hast]
    rfl
  have e1 : get_artist_preference (record_skip h t tp) a
      = max 0 (ast.preference_score - 2/100) := by
    unfold get_artist_preference
    simp only [hane, if_false, hlook]
  have e3 := record_play_pref (record_skip h t tp) t tid a m
      { ast with preference_score := max 0 (ast.preference_score - 2/100) }
      dp now hid hm hma hane hlook
  dsimp only at e3
  rw [e1, e3]
  rcases le_or_lt (2/100 : ℚ) ast.preference_score with hc | hc
  · rw [max_eq_right (by linarith), min_eq_right (by linarith)]
    refine ⟨rfl, by linarith, rfl, by linarith, by linarith⟩
  · rw [max_eq_left (by linarith), min_eq_right (by norm_num)]
    refine ⟨rfl, by linarith, rfl, by linarith, by norm_num⟩

/-- C8 witness: the amended skip-then-play facts evaluated on a concrete
one-track, one-artist history with preference score 0.5. -/
theorem skip_then_play_lowers_preference_witness :
    get_artist_preference
      (record_skip
        { tracks := [("t1", { play_count := 1, skip_count := 0, last_played := 0,
                              total_duration_played := 0, title := "Song", artist := "A" })],
          artists := [("A", { play_count := 1, preference_score := 1/2 })] }
        { id := some "t1", title := "Song", channel := "", duration := 100,
          quality_score := 1/2,
          metadata := some { artist := "A", normalized_title := "song" } } 10) "A"
      < 1/2 := by
  have h := skip_then_play_lowers_preference
    { tracks := [("t1", { play_count := 1, skip_count := 0, last_played := 0,
                          total_duration_played := 0, title := "Song", artist := "A" })],
      artists := [("A", { play_count := 1, preference_score := 1/2 })] }
    { id := some "t1", title := "Song", channel := "", duration := 100,
      quality_score := 1/2,
      metadata := some { artist := "A", normalized_title := "song" } }
    "t1" "A"
    { play_count := 1, skip_count := 0, last_played := 0,
      total_duration_played := 0, title := "Song", artist := "A" }
    { play_count := 1, preference_score := 1/2 }
    10 80 1000 rfl rfl rfl rfl (by norm_num) (by norm_num) (by norm_num) (by norm_num)
  exact h.2.1

/-- Oracle supplying the outcomes of the random-module calls: choice k
drives the k-th random.choice / random.choices draw (reduced modulo the
size of the choice set at the call site), coin k the k-th test
random.random() < 0.2, and shuf g k the k-th draw of random.shuffle
applied to the g-th list. Theorems quantify over all oracles, covering
every outcome the PRNG of the source can produce. -/
structure Rand where
  choice : Nat → Nat
  coin : Nat → Bool
  shuf : Nat → Nat → Nat

/-- SmartQueue state (smart_queue.py lines 186-199): priority is the
priority_queue deque, main the main_queue, played the played_tracks set
of identifiers, cursor the current_index, mode the shuffle_mode string
and last_played the last_played_track attribute (none while unset).
The attached ListeningHistory instance is the history field. -/
structure Queue where
  history : History
  priority : List Track
  main : List Track
  played : Finset String
  cursor : Nat
  mode : String
  last_played : Option Track
deriving DecidableEq

/-- SmartQueue._mark_as_played (smart_queue.py lines 324-327): the id is
added only when truthy (present and non-empty). -/
def mark_as_played (t : Track) (q : Queue) : Queue :=
  match t.id with
  | some tid => if tid = "" then q else { q with played := insert tid q.played }
  | none => q

/-- Index-and-value search mirroring the `for i, track in enumerate(...)`
loops of remove_track and move_track. -/
def findWithIndex {α : Type} (p : α → Bool) : List α → Option (Nat × α)
  | [] => none
  | x :: xs =>
    if p x then some (0, x)
    else (findWithIndex p xs).map (fun iy => (iy.1 + 1, iy.2))

theorem findWithIndex_some {α : Type} (p : α → Bool) (l : List α) (i : Nat) (x : α)
    (h : findWithIndex p l = some (i, x)) : i < l.length ∧ l[i]? = some x := by
  induction l generalizing i with
  | nil => simp [findWithIndex] at h
  | cons a as ih =>
    by_cases hp : p a
    · simp only [findWithIndex, hp, if_true, Option.some.injEq, Prod.mk.injEq] at h
      obtain ⟨h1, h2⟩ := h
      subst h1
      subst h2
      simp
    · simp only [findWithIndex, hp, if_false] at h
      cases hfa : findWithIndex p as with
      | none => rw [hfa] at h; simp at h
      | some iy =>
        obtain ⟨j, y⟩ := iy
        rw [hfa] at h
        simp only [Bool.false_eq_true, if_false, Option.map_some', Option.some.injEq,
          Prod.mk.injEq] at h
        obtain ⟨h1, h2⟩ := h
        subst h2
        obtain ⟨hlt, hget⟩ := ih j hfa
        subst h1
        constructor
        · simpa using hlt
        · simpa using hget

/-- List insertion at an index, as Python list.insert: positions from n
on shift up by one (n is always pre-clamped to the list length at the
single call site, move_track). -/
def insertAt {α : Type} (n : Nat) (x : α) : List α → List α
  | [] => [x]
  | a :: l =>
    match n with
    | 0 => x :: a :: l
    | Nat.succ m => a :: insertAt m x l

theorem eraseIdx_getElem?_lt {α : Type} (l : List α) (i j : Nat) (hj : j < i) :
    (l.eraseIdx i)[j]? = l[j]? := by
  induction l generalizing i j with
  | nil => simp
  | cons a as ih =>
    cases i with
    | zero => omega
    | succ m =>
      cases j with
      | zero => simp [List.eraseIdx]
      | succ k => simpa [List.eraseIdx] using ih m k (by omega)

theorem eraseIdx_getElem?_ge {α : Type} (l : List α) (i j : Nat)
    (hi : i < l.length) (hij : i ≤ j) :
    (l.eraseIdx i)[j]? = l[j+1]? := by
  induction l generalizing i j with
  | nil => simp at hi
  | cons a as ih =>
    cases i with
    | zero => simp [List.eraseIdx]
    | succ m =>
      cases j with
      | zero => omega
      | succ k =>
        have hm : m < as.length := by simpa using hi
        simpa [List.eraseIdx] using ih m k hm (by omega)

theorem insertAt_getElem?_lt {α : Type} (l : List α) (n j : Nat) (x : α)
    (hn : n ≤ l.length) (hj : j < n) :
    (insertAt n x l)[j]? = l[j]? := by
  induction l generalizing n j with
  | nil => simp at hn; omega
  | cons a as ih =>
    cases n with
    | zero => omega
    | succ m =>
      cases j with
      | zero => simp [insertAt]
      | succ k => simpa [insertAt] using ih m k (by simpa using hn) (by omega)

theorem insertAt_getElem?_gt {α : Type} (l : List α) (n k : Nat) (x : α)
    (hn : n ≤ l.length) (hk : n ≤ k) :
    (insertAt n x l)[k+1]? = l[k]? := by
  induction l generalizing n k with
  | nil =>
    have : n = 0 := by simpa using hn
    subst this
    simp [insertAt]
  | cons a as ih =>
    cases n with
    | zero => simp [insertAt]
    | succ m =>
      cases k with
      | zero => omega
      | succ j => simpa [insertAt] using ih m j (by simpa using hn) (by omega)

/-- SmartQueue.remove_track (smart_queue.py lines 409-430): the priority
tier is searched first (no cursor adjustment), then the main tier,
where the cursor is decremented exactly when the removed index strictly
precedes it. -/
def remove_track (tid : String) (q : Queue) : Bool × Queue :=
  match findWithIndex (fun t => t.id == some tid) q.priority with
  | some it => (true, { q with priority := q.priority.eraseIdx it.1 })
  | none =>
    match findWithIndex (fun t => t.id == some tid) q.main with
    | some it =>
      (true, { q with main := q.main.eraseIdx it.1,
                      cursor := if it.1 < q.cursor then q.cursor - 1 else q.cursor })
    | none => (false, q)

/-- SmartQueue.move_track (smart_queue.py lines 432-466): remove at the
found index (decrementing the cursor when that index precedes it),
clamp the target position into the shortened list, insert, and bump the
cursor when the insertion point is at or before it. -/
def move_track (tid : String) (new_position : Int) (q : Queue) : Bool × Queue :=
  match findWithIndex (fun t => t.id == some tid) q.main with
  | none => (false, q)
  | some it =>
    let old_index := it.1
    let main1 := q.main.eraseIdx old_index
    let c1 := if old_index < q.cursor then q.cursor - 1 else q.cursor
    let n : Nat := (max 0 (min new_position (main1.length : Int))).toNat
    let main2 := insertAt n it.2 main1
    let c2 := if n ≤ c1 then c1 + 1 else c1
    (true, { q with main := main2, cursor := c2 })

theorem length_eraseIdx_of_lt {α : Type} (l : List α) (i : Nat) (h : i < l.length) :
    (l.eraseIdx i).length = l.length - 1 := by
  induction l generalizing i with
  | nil => simp at h
  | cons a as ih =>
    cases i with
    | zero => simp [List.eraseIdx]
    | succ m =>
      have hm : m < as.length := by simpa using h
      have := ih m hm
      simp only [List.eraseIdx, List.length_cons, this]
      omega

/-- C4 (amended): removing a main-tier track decrements the cursor
exactly when the removed index strictly precedes it, and the cursor
then denotes the same track provided the cursor is in range and the
removed track is not the one at the cursor; moving a track likewise
keeps the cursor on the track it denoted, provided that track is not
the moved one. When the removed or moved track IS the cursor's own
track, the cursor cannot or does not follow it (see the
counterexample). -/
theorem remove_move_cursor_consistent :
    (∀ (q : Queue) (tid : String) (i : Nat) (x : Track),
      findWithIndex (fun t => t.id == some tid) q.priority = none →
      findWithIndex (fun t => t.id == some tid) q.main = some (i, x) →
      (remove_track tid q).2.cursor
          = (if i < q.cursor then q.cursor - 1 else q.cursor) ∧
      (q.cursor < q.main.length → i ≠ q.cursor →
        (remove_track tid q).2.main[(remove_track tid q).2.cursor]?
          = q.main[q.cursor]?)) ∧
    (∀ (q : Queue) (tid : String) (n : Int) (o : Nat) (x : Track),
      findWithIndex (fun t => t.id == some tid) q.main = some (o, x) →
      q.cursor < q.main.length → o ≠ q.cursor →
      (move_track tid n q).2.main[(move_track tid n q).2.cursor]?
        = q.main[q.cursor]?) := by
  constructor
  · intro q tid i x hp hm
    obtain ⟨hilen, _⟩ := findWithIndex_some _ _ _ _ hm
    simp only [remove_track, hp, hm]
    refine ⟨by trivial, fun hc hne => ?_⟩
    by_cases hlt : i < q.cursor
    · simp only [hlt, if_true]
      rw [eraseIdx_getElem?_ge q.main i (q.cursor - 1) hilen (by omega)]
      congr 1
      omega
    · simp only [hlt, if_false]
      exact eraseIdx_getElem?_lt q.main i q.cursor (by omega)
  · intro q tid n o x hm hc hne
    obtain ⟨holen, _⟩ := findWithIndex_some _ _ _ _ hm
    simp only [move_track, hm]
    have hlen1 : (q.main.eraseIdx o).length = q.main.length - 1 :=
      length_eraseIdx_of_lt q.main o holen
    have hn : (max 0 (min n ((q.main.eraseIdx o).length : Int))).toNat
        ≤ (q.main.eraseIdx o).length := by omega
    have hA : ∀ c1 : Nat, c1 = (if o < q.cursor then q.cursor - 1 else q.cursor) →
        (q.main.eraseIdx o)[c1]? = q.main[q.cursor]? ∧ c1 < (q.main.eraseIdx o).length := by
      intro c1 hc1
      by_cases hlt : o < q.cursor
      · rw [hc1]
        simp only [hlt, if_true]
        constructor
        · rw [eraseIdx_getElem?_ge q.main o (q.cursor - 1) holen (by omega)]
          congr 1
          omega
        · omega
      · rw [hc1]
        simp only [hlt, if_false]
        constructor
        · exact eraseIdx_getElem?_lt q.main o q.cursor (by omega)
        · omega
    obtain ⟨hAe, hAlt⟩ := hA _ rfl
    by_cases hle : (max 0 (min n ((q.main.eraseIdx o).length : Int))).toNat
        ≤ (if o < q.cursor then q.cursor - 1 else q.cursor)
    · simp only [hle, if_true]
      rw [insertAt_getElem?_gt (q.main.eraseIdx o) _ _ x hn hle]
      exact hAe
    · simp only [hle, if_false]
      rw [insertAt_getElem?_lt (q.main.eraseIdx o) _ _ x hn (by omega)]
      exact hAe

def emptyHistory : History := { tracks := [], artists := [] }

def trackIdA : Track :=
  { id := some "a", title := "A", channel := "", duration := 0,
    quality_score := 0, metadata := none }

def trackIdB : Track :=
  { id := some "b", title := "B", channel := "", duration := 0,
    quality_score := 0, metadata := none }

def trackIdC : Track :=
  { id := some "c", title := "C", channel := "", duration := 0,
    quality_score := 0, metadata := none }

/-- Queue of three distinct-id tracks with the cursor on the first one,
in sequential mode. -/
def queueABC : Queue :=
  { history := emptyHistory, priority := [], main := [trackIdA, trackIdB, trackIdC],
    played := ∅, cursor := 0, mode := "sequential", last_played := none }

/-- C4 counterexample: moving the track the cursor points at (index 0,
id "a") to position 2 leaves the cursor at 0, which now denotes track
"b" - the cursor no longer denotes the track it denoted before the
move, against the for-every-track claim. -/
theorem move_track_cursor_not_following :
    (move_track "a" 2 queueABC).2.main[(move_track "a" 2 queueABC).2.cursor]?
      = some trackIdB ∧
    queueABC.main[queueABC.cursor]? = some trackIdA ∧
    trackIdB ≠ trackIdA := by decide

/-- Queue of the same three tracks with the cursor on the second one. -/
def queueABCcur1 : Queue :=
  { history := emptyHistory, priority := [], main := [trackIdA, trackIdB, trackIdC],
    played := ∅, cursor := 1, mode := "sequential", last_played := none }

/-- C4 witness: the amended removal and move facts evaluated on a
concrete three-track queue with cursor 1. -/
theorem remove_move_cursor_consistent_witness :
    (remove_track "a" queueABCcur1).2.cursor
        = (if 0 < queueABCcur1.cursor then queueABCcur1.cursor - 1 else queueABCcur1.cursor) ∧
    (remove_track "a" queueABCcur1).2.main[(remove_track "a" queueABCcur1).2.cursor]?
        = queueABCcur1.main[queueABCcur1.cursor]? ∧
    (move_track "c" 0 queueABCcur1).2.main[(move_track "c" 0 queueABCcur1).2.cursor]?
        = queueABCcur1.main[queueABCcur1.cursor]? := by
  have h1 := remove_move_cursor_consistent.1 queueABCcur1 "a" 0 trackIdA
    (by decide) (by decide)
  have h2 := remove_move_cursor_consistent.2 queueABCcur1 "c" 0 2 trackIdC
    (by decide) (by decide) (by decide)
  exact ⟨h1.1, h1.2 (by decide) (by decide), h2⟩

/-- ListeningHistory.get_track_score (smart_queue.py lines 153-183):
average of quality score and artist preference when the artist is
known, duration-preference adjustment against the preferred range,
recency penalties from the last_played timestamp (now is time.time()),
clamped to the unit interval. The truthiness test `track_id and
track_id in ...` makes an empty id skip the recency lookup. -/
def get_track_score (h : History) (now : Int) (t : Track) : ℚ :=
  let base := t.quality_score
  let base := match t.knownArtist with
    | some a => (base + get_artist_preference h a) / 2
    | none => base
  let base :=
    if h.preferred_min ≤ t.duration ∧ t.duration ≤ h.preferred_max then base + 1/10
    else if (t.duration : ℚ) < (h.preferred_min : ℚ) * (1/2)
        ∨ (h.preferred_max : ℚ) * 2 < (t.duration : ℚ) then base - 1/5
    else base
  let base := match t.id with
    | some tid =>
      if tid = "" then base
      else
        match lookupA tid h.tracks with
        | some st =>
          let hours : ℚ := ((now : ℚ) - (st.last_played : ℚ)) / 3600
          if hours < 2 then base - 3/10
          else if hours < 24 then base - 1/10
          else base
        | none => base
    | none => base
  max 0 (min 1 base)

/-- Python filter predicate `t.get("id") not in self.played_tracks`: a
track with no id is never considered played. -/
def notPlayed (q : Queue) (t : Track) : Bool :=
  match t.id with
  | some i => decide (i ∉ q.played)
  | none => true

/-- SmartQueue._get_next_sequential (smart_queue.py lines 254-261). -/
def get_next_sequential (q : Queue) : Option Track × Queue :=
  if hc : q.cursor < q.main.length then
    let t := q.main.get ⟨q.cursor, hc⟩
    (some t, mark_as_played t { q with cursor := q.cursor + 1 })
  else (none, q)

/-- SmartQueue._get_next_random (smart_queue.py lines 263-270):
random.choice over the unplayed main-tier entries, modelled by an
oracle-selected index. -/
def get_next_random (o : Rand) (q : Queue) : Option Track × Queue :=
  let available := q.main.filter (notPlayed q)
  if available.isEmpty then (none, q)
  else
    let t := available.getD (o.choice 0 % available.length) dummyTrack
    (some t, mark_as_played t q)

/-- Scoring step of SmartQueue._get_next_smart (smart_queue.py lines
280-293): history score plus the same-artist penalty of 0.2 against
last_played_track. -/
def smart_score (q : Queue) (now : Int) (t : Track) : ℚ :=
  let score := get_track_score q.history now t
  match q.last_played with
  | some lp =>
    match lp.knownArtist, t.knownArtist with
    | some a1, some a2 => if a1 = a2 then score - 1/5 else score
    | _, _ => score
  | none => score

/-- Stable insertion of a scored track into a descending-sorted list,
matching Python's stable `sort(key=..., reverse=True)`: an element
moves past entries with strictly smaller score only. -/
def insertByScore (x : Track × ℚ) : List (Track × ℚ) → List (Track × ℚ)
  | [] => [x]
  | y :: ys => if y.2 ≤ x.2 then x :: y :: ys else y :: insertByScore x ys

def sortByScore : List (Track × ℚ) → List (Track × ℚ)
  | [] => []
  | x :: xs => insertByScore x (sortByScore xs)

/-- SmartQueue._get_next_smart (smart_queue.py lines 272-311): score the
unplayed entries, sort descending, keep the top third (at least one),
draw by weight when the weights sum positive - the weighted
random.choices draw is modelled by an oracle-selected index among the
kept entries - else fall back to the single top entry; the winner is
marked played and becomes last_played_track. -/
def get_next_smart (o : Rand) (now : Int) (q : Queue) : Option Track × Queue :=
  let available := q.main.filter (notPlayed q)
  if available.isEmpty then (none, q)
  else
    let scored := available.map (fun t => (t, smart_score q now t))
    let sorted := sortByScore scored
    let top_count := max 1 (scored.length / 3)
    let top := sorted.take top_count
    let t :=
      if 0 < (top.map Prod.snd).sum then
        (top.getD (o.choice 0 % top.length) (dummyTrack, 0)).1
      else (top.headD (dummyTrack, 0)).1
    (some t, { mark_as_played t q with last_played := some t })

/-- SmartQueue._get_next_mood_based (smart_queue.py lines 313-322):
checks availability, then defers to the smart selection. -/
def get_next_mood (o : Rand) (now : Int) (q : Queue) : Option Track × Queue :=
  let available := q.main.filter (notPlayed q)
  if available.isEmpty then (none, q)
  else get_next_smart o now q

/-- SmartQueue.get_next_track (smart_queue.py lines 234-252): drain the
priority tier first (FIFO, marking played but leaving
last_played_track untouched), then dispatch on the shuffle mode; an
unrecognized mode returns None. -/
def get_next_track (o : Rand) (now : Int) (q : Queue) : Option Track × Queue :=
  match q.priority with
  | t :: rest => (some t, mark_as_played t { q with priority := rest })
  | [] =>
    if q.mode = "sequential" then get_next_sequential q
    else if q.mode = "random" then get_next_random o q
    else if q.mode = "smart" then get_next_smart o now q
    else if q.mode = "mood" then get_next_mood o now q
    else (none, q)

theorem mark_as_played_mem (t : Track) (q : Queue) (i : String)
    (hid : t.id = some i) (hne : i ≠ "") : i ∈ (mark_as_played t q).played := by
  simp [mark_as_played, hid, hne]

theorem mark_as_played_last (t : Track) (q : Queue) :
    (mark_as_played t q).last_played = q.last_played := by
  unfold mark_as_played
  cases t.id with
  | none => rfl
  | some i =>
    by_cases hi : i = "" <;> simp [hi]

theorem mark_as_played_mode (t : Track) (q : Queue) :
    (mark_as_played t q).mode = q.mode := by
  unfold mark_as_played
  cases t.id with
  | none => rfl
  | some i =>
    by_cases hi : i = "" <;> simp [hi]

theorem get_next_smart_inv (o : Rand) (now : Int) (q : Queue) (t : Track) (q2 : Queue)
    (h : get_next_smart o now q = (some t, q2)) :
    q2 = { mark_as_played t q with last_played := some t } := by
  unfold get_next_smart at h
  by_cases he : (q.main.filter (notPlayed q)).isEmpty
  · rw [if_pos he] at h
    simp at h
  · rw [if_neg he] at h
    simp only [] at h
    rw [Prod.mk.injEq, Option.some.injEq] at h
    obtain ⟨h1, h2⟩ := h
    subst h1
    subst h2
    rfl

/-- C1 (amended): a successful pullNext always adds the pulled track's
truthy identifier to playedSet, but last_played_track is set only on
smart- or mood-mode pulls out of the main tier - priority-tier,
sequential and random pulls leave it unchanged; and when no eligible
entry exists (priority empty plus an exhausted cursor in sequential
mode, or no unplayed main entry in the other modes) pullNext returns
None rather than raising. -/
theorem pull_next_props :
    (∀ (o : Rand) (now : Int) (q : Queue) (t : Track) (q2 : Queue),
      get_next_track o now q = (some t, q2) →
      (∀ i, t.id = some i → i ≠ "" → i ∈ q2.played) ∧
      q2.last_played
        = (if q.priority = [] ∧ (q.mode = "smart" ∨ q.mode = "mood")
           then some t else q.last_played)) ∧
    (∀ (o : Rand) (now : Int) (q : Queue),
      q.priority = [] →
      ((q.mode = "sequential" → ¬ q.cursor < q.main.length →
          (get_next_track o now q).1 = none) ∧
       ((q.mode = "random" ∨ q.mode = "smart" ∨ q.mode = "mood") →
          q.main.filter (notPlayed q) = [] →
          (get_next_track o now q).1 = none))) := by
  constructor
  · intro o now q t q2 h
    match hq : q.priority with
    | t0 :: rest =>
      rw [get_next_track, hq] at h
      have h1 := congrArg Prod.fst h
      have h2 := congrArg Prod.snd h
      simp only [Option.some.injEq] at h1 h2
      subst h1
      subst h2
      refine ⟨fun i hid hne => mark_as_played_mem _ _ i hid hne, ?_⟩
      rw [mark_as_played_last]
      simp [hq]
    | [] =>
      rw [get_next_track, hq] at h
      by_cases hseq : q.mode = "sequential"
      · rw [if_pos hseq] at h
        unfold get_next_sequential at h
        by_cases hc : q.cursor < q.main.length
        · rw [dif_pos hc] at h
          have h1 := congrArg Prod.fst h
          have h2 := congrArg Prod.snd h
          simp only [Option.some.injEq] at h1 h2
          subst h1
          subst h2
          refine ⟨fun i hid hne => mark_as_played_mem _ _ i hid hne, ?_⟩
          rw [mark_as_played_last]
          simp [hseq]
        · rw [dif_neg hc] at h
          simp at h
      · rw [if_neg hseq] at h
        by_cases hrnd : q.mode = "random"
        · rw [if_pos hrnd] at h
          unfold get_next_random at h
          by_cases he : (q.main.filter (notPlayed q)).isEmpty
          · rw [if_pos he] at h
            simp at h
          · rw [if_neg he] at h
            have h1 := congrArg Prod.fst h
            have h2 := congrArg Prod.snd h
            simp only [Option.some.injEq] at h1 h2
            subst h1
            subst h2
            refine ⟨fun i hid hne => mark_as_played_mem _ _ i hid hne, ?_⟩
            rw [mark_as_played_last]
            simp [hrnd]
        · rw [if_neg hrnd] at h
          by_cases hsm : q.mode = "smart"
          · rw [if_pos hsm] at h
            have := get_next_smart_inv o now q t q2 h
            subst this
            refine ⟨fun i hid hne => mark_as_played_mem _ _ i hid hne, ?_⟩
            simp [hq, hsm]
          · rw [if_neg hsm] at h
            by_cases hmd : q.mode = "mood"
            · rw [if_pos hmd] at h
              unfold get_next_mood at h
              by_cases he : (q.main.filter (notPlayed q)).isEmpty
              · rw [if_pos he] at h
                simp at h
              · rw [if_neg he] at h
                have := get_next_smart_inv o now q t q2 h
                subst this
                refine ⟨fun i hid hne => mark_as_played_mem _ _ i hid hne, ?_⟩
                simp [hq, hmd]
            · rw [if_neg hmd] at h
              simp at h
  · intro o now q hq
    constructor
    · intro hseq hc
      rw [get_next_track, hq, if_pos hseq]
      unfold get_next_sequential
      rw [dif_neg hc]
    · intro hmode he
      have hemp : (q.main.filter (notPlayed q)).isEmpty := by
        rw [he]
        rfl
      rcases hmode with hm | hm | hm
      · have hne : q.mode ≠ "sequential" := by rw [hm]; decide
        rw [get_next_track, hq, if_neg hne, if_pos hm]
        unfold get_next_random
        rw [if_pos hemp]
      · have hne1 : q.mode ≠ "sequential" := by rw [hm]; decide
        have hne2 : q.mode ≠ "random" := by rw [hm]; decide
        rw [get_next_track, hq, if_neg hne1, if_neg hne2, if_pos hm]
        unfold get_next_smart
        rw [if_pos hemp]
      · have hne1 : q.mode ≠ "sequential" := by rw [hm]; decide
        have hne2 : q.mode ≠ "random" := by rw [hm]; decide
        have hne3 : q.mode ≠ "smart" := by rw [hm]; decide
        rw [get_next_track, hq, if_neg hne1, if_neg hne2, if_neg hne3, if_pos hm]
        unfold get_next_mood
        rw [if_pos hemp]

/-- Oracle with all-zero choice streams, used for concrete evaluation. -/
def oracleZero : Rand := { choice := fun _ => 0, coin := fun _ => false, shuf := fun _ _ => 0 }

/-- Queue holding one priority-tier track, smart mode, nothing played. -/
def queuePrio : Queue :=
  { history := emptyHistory, priority := [trackIdA], main := [],
    played := ∅, cursor := 0, mode := "smart", last_played := none }

/-- C1 counterexample: a successful priority-tier pull returns the track
and records it in playedSet, but last_played_track stays none - the
claim that every successful pull updates lastPlayed to the returned
track fails on the priority path (and likewise on sequential and
random main-tier pulls). -/
theorem pull_priority_no_lastPlayed_update :
    (get_next_track oracleZero 0 queuePrio).1 = some trackIdA ∧
    ("a" : String) ∈ (get_next_track oracleZero 0 queuePrio).2.played ∧
    (get_next_track oracleZero 0 queuePrio).2.last_played = none := by decide

/-- Empty sequential-mode queue: no eligible entry in any tier. -/
def queueEmptySeq : Queue :=
  { history := emptyHistory, priority := [], main := [],
    played := ∅, cursor := 0, mode := "sequential", last_played := none }

/-- C1 witness: the amended pull facts evaluated on a concrete
sequential pull and on an exhausted queue. -/
theorem pull_next_props_witness :
    ("a" : String) ∈ (get_next_track oracleZero 0 queueABC).2.played ∧
    (get_next_track oracleZero 0 queueABC).2.last_played
      = (if queueABC.priority = [] ∧ (queueABC.mode = "smart" ∨ queueABC.mode = "mood")
         then some trackIdA else queueABC.last_played) ∧
    (get_next_track oracleZero 0 queueEmptySeq).1 = none := by
  have h := pull_next_props.1 oracleZero 0 queueABC trackIdA
      (get_next_track oracleZero 0 queueABC).2 rfl
  have h2 := pull_next_props.2 oracleZero 0 queueEmptySeq (by decide)
  exact ⟨h.1 "a" (by decide) (by decide), h.2, h2.1 (by decide) (by decide)⟩

/-- A non-empty artist group of _smart_shuffle: artist name, first
queued track and the rest. The deque values of artist_groups are
non-empty by construction (a group is created when its first track
arrives) and deleted as soon as they empty; the head/tail
representation makes that invariant structural. -/
structure Group where
  artist : String
  first : Track
  rest : List Track
deriving DecidableEq

def groupContents (g : Group) : List Track := g.first :: g.rest

def allTracks : List Group → List Track
  | [] => []
  | g :: gs => groupContents g ++ allTracks gs

/-- defaultdict(list) append of _smart_shuffle (smart_queue.py lines
340-349): a track joins its artist's group at the end, first-seen
artist order preserved, a fresh artist opening a new group at the end. -/
def addToGroups (a : String) (t : Track) : List Group → List Group
  | [] => [{ artist := a, first := t, rest := [] }]
  | g :: gs =>
    if g.artist = a then { g with rest := g.rest ++ [t] } :: gs
    else g :: addToGroups a t gs

/-- Grouping pass of _smart_shuffle (lines 340-349): left-to-right walk
over the main tier; tracks with a known artist are grouped by artist,
the rest collected in order into the no_artist list. -/
def groupTracksAux (acc : List Group × List Track) : List Track → List Group × List Track
  | [] => acc
  | t :: ts =>
    match t.knownArtist with
    | some a => groupTracksAux (addToGroups a t acc.1, acc.2) ts
    | none => groupTracksAux (acc.1, acc.2 ++ [t]) ts

def groupTracks (l : List Track) : List Group × List Track := groupTracksAux ([], []) l

/-- random.shuffle modelled as oracle-driven draws without replacement:
each step takes the element at an oracle-chosen index of the remainder.
Quantifying over all oracles covers every permutation the Fisher-Yates
shuffle of the source can produce. -/
def oracleShuffle {α : Type} [Inhabited α] (g : Nat → Nat) : Nat → List α → List α
  | _, [] => []
  | k, x :: xs =>
    (x :: xs).getD (g k % (x :: xs).length) default ::
      oracleShuffle g (k + 1) ((x :: xs).eraseIdx (g k % (x :: xs).length))
termination_by _ l => l.length
decreasing_by
  rw [length_eraseIdx_of_lt _ _ (Nat.mod_lt _ (by simp))]
  simp

/-- One popleft from the i-th artist group, deleting the group once it
empties (lines 368-374 of _smart_shuffle); the index is always in
range at the call site, the out-of-range branch is unreachable. -/
def popGroup (i : Nat) : List Group → Track × List Group
  | [] => (dummyTrack, [])
  | g :: gs =>
    match i with
    | 0 =>
      (g.first,
       match g.rest with
       | [] => gs
       | u :: us => { artist := g.artist, first := u, rest := us } :: gs)
    | Nat.succ j =>
      let r := popGroup j gs
      (r.1, g :: r.2)

theorem getD_cons_eraseIdx_coe {α : Type} (l : List α) (i : Nat) (d : α) (h : i < l.length) :
    ({l.getD i d} : Multiset α) + ↑(l.eraseIdx i) = (l : Multiset α) := by
  induction l generalizing i with
  | nil => simp at h
  | cons x xs ih =>
    cases i with
    | zero =>
      simp only [List.getD_cons_zero, List.eraseIdx_cons_zero, Multiset.singleton_add,
        Multiset.cons_coe]
    | succ j =>
      have hj : j < xs.length := by simpa using h
      have hxs := ih j hj
      simp only [List.getD_cons_succ, List.eraseIdx_cons_succ, ← Multiset.cons_coe,
        ← Multiset.singleton_add, ← hxs]
      abel

theorem oracleShuffle_coe {α : Type} [Inhabited α] (g : Nat → Nat) :
    ∀ (n k : Nat) (l : List α), l.length = n →
      ((oracleShuffle g k l : List α) : Multiset α) = (l : Multiset α) := by
  intro n
  induction n using Nat.strong_induction_on with
  | _ n ih =>
    intro k l hl
    match l with
    | [] => rw [oracleShuffle]
    | x :: xs =>
      rw [oracleShuffle]
      have hi : g k % (x :: xs).length < (x :: xs).length :=
        Nat.mod_lt _ (by simp)
      have hlen : ((x :: xs).eraseIdx (g k % (x :: xs).length)).length < n := by
        rw [length_eraseIdx_of_lt _ _ hi]
        simp only [List.length_cons] at hl ⊢
        omega
      have ih2 := ih _ hlen (k + 1) _ rfl
      rw [← Multiset.cons_coe, ← Multiset.singleton_add, ih2,
        getD_cons_eraseIdx_coe _ _ _ hi]

theorem popGroup_coe (i : Nat) (qs : List Group) (h : i < qs.length) :
    ({(popGroup i qs).1} : Multiset Track) + ↑(allTracks (popGroup i qs).2)
      = (allTracks qs : Multiset Track) := by
  induction qs generalizing i with
  | nil => simp at h
  | cons g gs ih =>
    cases i with
    | zero =>
      cases hr : g.rest with
      | nil =>
        simp only [popGroup, hr, allTracks, groupContents, hr, List.cons_append,
          List.nil_append, ← Multiset.cons_coe, ← Multiset.singleton_add]
      | cons u us =>
        simp only [popGroup, hr, allTracks, groupContents, List.cons_append,
          ← Multiset.coe_add, ← Multiset.cons_coe, ← Multiset.singleton_add]
        try abel
    | succ j =>
      have hj : j < gs.length := by simpa using h
      have hgs := ih j hj
      simp only [popGroup, allTracks, groupContents, List.cons_append,
        ← Multiset.coe_add, ← Multiset.cons_coe, ← Multiset.singleton_add] at hgs ⊢
      rw [← hgs]
      abel

theorem popGroup_length (i : Nat) (qs : List Group) (h : i < qs.length) :
    (allTracks (popGroup i qs).2).length + 1 = (allTracks qs).length := by
  have hc := congrArg Multiset.card (popGroup_coe i qs h)
  simp only [Multiset.card_add, Multiset.card_singleton, Multiset.coe_card] at hc
  omega

/-- Python list.pop(): last element (a dummy default for the
unreachable empty case) and the list without it. -/
def popLast {α : Type} (d : α) : List α → α × List α
  | [] => (d, [])
  | [x] => (x, [])
  | x :: y :: ys =>
    let r := popLast d (y :: ys)
    (r.1, x :: r.2)

theorem popLast_length {α : Type} (d : α) (l : List α) (h : l ≠ []) :
    (popLast d l).2.length + 1 = l.length := by
  induction l with
  | nil => exact absurd rfl h
  | cons x xs ih =>
    cases xs with
    | nil => rfl
    | cons y ys =>
      have := ih (by simp)
      simp only [popLast, List.length_cons] at this ⊢
      omega

theorem popLast_coe {α : Type} (d : α) (l : List α) (h : l ≠ []) :
    ({(popLast d l).1} : Multiset α) + ↑(popLast d l).2 = (l : Multiset α) := by
  induction l with
  | nil => exact absurd rfl h
  | cons x xs ih =>
    cases xs with
    | nil => simp [popLast]
    | cons y ys =>
      have hys := ih (by simp)
      simp only [popLast, ← Multiset.cons_coe, ← Multiset.singleton_add, ← hys]
      abel

theorem popLast_length_le {α : Type} (d : α) (l : List α) :
    (popLast d l).2.length ≤ l.length := by
  cases l with
  | nil => simp [popLast]
  | cons x xs =>
    have := popLast_length d (x :: xs) (by simp)
    omega

/-- Interleave loop of _smart_shuffle (smart_queue.py lines 362-378):
while groups or artist-less tracks remain, pop the head of an
oracle-chosen group; then, when artist-less tracks remain and either no
group is left after the pop or the oracle coin fires (the 20% chance of
random.random() < 0.2), also pop the last artist-less track. Once only
artist-less tracks remain, one is popped from the end per iteration. -/
def interleave (o : Rand) (k : Nat) : List Group → List Track → List Track
  | [], [] => []
  | [], t :: ts =>
    (popLast dummyTrack (t :: ts)).1 ::
      interleave o (k + 1) [] (popLast dummyTrack (t :: ts)).2
  | g :: gs, na =>
    if !na.isEmpty &&
        ((popGroup (o.choice k % (g :: gs).length) (g :: gs)).2.isEmpty || o.coin k) then
      (popGroup (o.choice k % (g :: gs).length) (g :: gs)).1 ::
        (popLast dummyTrack na).1 ::
          interleave o (k + 1) (popGroup (o.choice k % (g :: gs).length) (g :: gs)).2
            (popLast dummyTrack na).2
    else
      (popGroup (o.choice k % (g :: gs).length) (g :: gs)).1 ::
        interleave o (k + 1) (popGroup (o.choice k % (g :: gs).length) (g :: gs)).2 na
termination_by qs na => (allTracks qs).length + na.length
decreasing_by
  · have hp := popLast_length dummyTrack (t :: ts) (by simp)
    simp only [allTracks, List.length_nil]
    omega
  · have hi : o.choice k % (g :: gs).length < (g :: gs).length :=
      Nat.mod_lt _ (by simp)
    have h1 := popGroup_length _ _ hi
    have h2 := popLast_length_le dummyTrack na
    omega
  · have hi : o.choice k % (g :: gs).length < (g :: gs).length :=
      Nat.mod_lt _ (by simp)
    have h1 := popGroup_length _ _ hi
    omega

theorem interleave_coe (o : Rand) :
    ∀ (n k : Nat) (qs : List Group) (na : List Track),
      (allTracks qs).length + na.length = n →
      ((interleave o k qs na : List Track) : Multiset Track)
        = ↑(allTracks qs) + ↑na := by
  intro n
  induction n using Nat.strong_induction_on with
  | _ n ih =>
    intro k qs na hn
    match qs, na with
    | [], [] =>
      rw [interleave]
      simp [allTracks]
    | [], t :: ts =>
      rw [interleave]
      have hp := popLast_length dummyTrack (t :: ts) (by simp)
      have hrec : (allTracks ([] : List Group)).length
          + (popLast dummyTrack (t :: ts)).2.length < n := by
        simp only [allTracks, List.length_nil] at hn ⊢
        omega
      have ih2 := ih _ hrec (k + 1) [] (popLast dummyTrack (t :: ts)).2 rfl
      rw [← Multiset.cons_coe, ← Multiset.singleton_add, ih2]
      simp only [allTracks, Multiset.coe_nil, zero_add]
      exact popLast_coe dummyTrack (t :: ts) (by simp)
    | g :: gs, na =>
      rw [interleave]
      have hi : o.choice k % (g :: gs).length < (g :: gs).length :=
        Nat.mod_lt _ (by simp)
      have hpg := popGroup_coe _ _ hi
      have hpl := popGroup_length _ _ hi
      by_cases hcond : (!na.isEmpty &&
          ((popGroup (o.choice k % (g :: gs).length) (g :: gs)).2.isEmpty || o.coin k)) = true
      · rw [if_pos hcond]
        have hna : na ≠ [] := by
          intro hh
          subst hh
          simp at hcond
        have hplast := popLast_length dummyTrack na hna
        have hrec : (allTracks (popGroup (o.choice k % (g :: gs).length) (g :: gs)).2).length
            + (popLast dummyTrack na).2.length < n := by
          omega
        have ih2 := ih _ hrec (k + 1) _ _ rfl
        rw [← Multiset.cons_coe, ← Multiset.cons_coe, ← Multiset.singleton_add,
          ← Multiset.singleton_add, ih2, ← hpg, ← popLast_coe dummyTrack na hna]
        abel
      · rw [if_neg hcond]
        have hrec : (allTracks (popGroup (o.choice k % (g :: gs).length) (g :: gs)).2).length
            + na.length < n := by
          omega
        have ih2 := ih _ hrec (k + 1) _ na rfl
        rw [← Multiset.cons_coe, ← Multiset.singleton_add, ih2, ← hpg]
        abel

/-- Per-group shuffling pass of _smart_shuffle (lines 355-360): each
artist group is shuffled in place; the shuffle of a non-empty group is
non-empty, making the empty match arm unreachable (it keeps the group
unchanged). -/
def shuffleGroups (o : Rand) : Nat → List Group → List Group
  | _, [] => []
  | gi, g :: gs =>
    (match oracleShuffle (o.shuf gi) 0 (groupContents g) with
     | [] => g
     | u :: us => { artist := g.artist, first := u, rest := us }) :: shuffleGroups o (gi + 1) gs

theorem shuffleGroups_coe (o : Rand) :
    ∀ (gi : Nat) (gs : List Group),
      ((allTracks (shuffleGroups o gi gs) : List Track) : Multiset Track)
        = ↑(allTracks gs) := by
  intro gi gs
  induction gs generalizing gi with
  | nil => rfl
  | cons g rest ih =>
    have hsh := oracleShuffle_coe (o.shuf gi) (groupContents g).length 0 (groupContents g) rfl
    cases hs : oracleShuffle (o.shuf gi) 0 (groupContents g) with
    | nil =>
      simp only [shuffleGroups, hs, allTracks, ← Multiset.coe_add, ih]
    | cons u us =>
      rw [hs] at hsh
      simp only [shuffleGroups, hs, allTracks]
      have hgc : groupContents { artist := g.artist, first := u, rest := us } = u :: us := rfl
      rw [hgc]
      simp only [← Multiset.coe_add, ih, hsh]

theorem addToGroups_coe (a : String) (t : Track) (gs : List Group) :
    ((allTracks (addToGroups a t gs) : List Track) : Multiset Track)
      = ↑(allTracks gs) + {t} := by
  induction gs with
  | nil =>
    simp [addToGroups, allTracks, groupContents]
  | cons g rest ih =>
    by_cases hg : g.artist = a
    · simp only [addToGroups, hg, if_true, allTracks, groupContents]
      simp only [List.cons_append, ← Multiset.coe_add, ← Multiset.cons_coe,
        ← Multiset.singleton_add]
      abel
    · simp only [addToGroups, hg, if_false, allTracks, groupContents]
      simp only [List.cons_append, ← Multiset.coe_add, ← Multiset.cons_coe,
        ← Multiset.singleton_add, ih]
      abel

theorem groupTracksAux_coe (l : List Track) :
    ∀ acc : List Group × List Track,
      ((allTracks (groupTracksAux acc l).1 : List Track) : Multiset Track)
          + ↑(groupTracksAux acc l).2
        = ↑(allTracks acc.1) + ↑acc.2 + ↑l := by
  induction l with
  | nil =>
    intro acc
    simp [groupTracksAux]
  | cons t ts ih =>
    intro acc
    cases hka : t.knownArtist with
    | some a =>
      simp only [groupTracksAux, hka]
      rw [ih (addToGroups a t acc.1, acc.2)]
      simp only [addToGroups_coe, ← Multiset.cons_coe, ← Multiset.singleton_add]
      abel
    | none =>
      simp only [groupTracksAux, hka]
      rw [ih (acc.1, acc.2 ++ [t])]
      simp only [← Multiset.coe_add, ← Multiset.cons_coe, ← Multiset.singleton_add]
      abel

/-- SmartQueue._smart_shuffle (smart_queue.py lines 335-380): no-op for
fewer than three main-tier tracks, else group by artist, shuffle each
group and interleave. -/
def smart_shuffle (o : Rand) (main : List Track) : List Track :=
  if main.length < 3 then main
  else interleave o 0 (shuffleGroups o 0 (groupTracks main).1) (groupTracks main).2

/-- SmartQueue._reorganize_queue (smart_queue.py lines 329-333): the
reshuffle pass runs only in smart mode. -/
def reorganize_queue (o : Rand) (q : Queue) : Queue :=
  if q.mode = "smart" then { q with main := smart_shuffle o q.main } else q

/-- SmartQueue.add_tracks (smart_queue.py lines 201-208). -/
def add_tracks (o : Rand) (tracks : List Track) (priority : Bool) (q : Queue) : Queue :=
  let q1 :=
    if priority then { q with priority := q.priority ++ tracks }
    else { q with main := q.main ++ tracks }
  reorganize_queue o q1

theorem smart_shuffle_perm (o : Rand) (main : List Track) :
    List.Perm (smart_shuffle o main) main := by
  unfold smart_shuffle
  by_cases h : main.length < 3
  · rw [if_pos h]
  · rw [if_neg h, ← Multiset.coe_eq_coe,
      interleave_coe o ((allTracks (shuffleGroups o 0 (groupTracks main).1)).length
        + (groupTracks main).2.length) 0 _ _ rfl,
      shuffleGroups_coe]
    have hg := groupTracksAux_coe main ([], [])
    simpa [allTracks, groupTracks] using hg

/-- C10: for every oracle outcome and every queue state, the smart
reshuffle pass (as invoked by _reorganize_queue from add_tracks and
add_track) leaves the main tier a permutation of what it was - no
track lost, none duplicated - and does not modify the priority tier,
the played set, or the cursor (in non-smart modes it is the identity). -/
theorem reorganize_queue_permutes (o : Rand) (q : Queue) :
    List.Perm (reorganize_queue o q).main q.main ∧
    (reorganize_queue o q).priority = q.priority ∧
    (reorganize_queue o q).played = q.played ∧
    (reorganize_queue o q).cursor = q.cursor := by
  unfold reorganize_queue
  by_cases hm : q.mode = "smart"
  · rw [if_pos hm]
    exact ⟨smart_shuffle_perm o q.main, rfl, rfl, rfl⟩
  · rw [if_neg hm]
    exact ⟨List.Perm.refl _, rfl, rfl, rfl⟩

/-- SmartQueue.set_shuffle_mode (smart_queue.py lines 382-391): a
recognized mode is stored (smart and random additionally reorganize the
queue); an unrecognized mode is silently ignored - the function has no
error path and returns normally. -/
def set_shuffle_mode (o : Rand) (mode : String) (q : Queue) : Queue :=
  if mode = "smart" ∨ mode = "random" ∨ mode = "sequential" ∨ mode = "mood" then
    let q1 := { q with mode := mode }
    if mode = "smart" ∨ mode = "random" then reorganize_queue o q1 else q1
  else q

/-- BackgroundDiscovery state (auto_discovery.py lines 22-44): the
trigger channel is discovery_queue (a bounded queue_module.Queue of
capacity 3, held as its FIFO contents), seed_tracks the bounded seed
deque (maxlen 5), discovered_artists the artist set, exploration the
artist_exploration_depth dict, and last_discovery_time together with
min_discovery_interval the rate-limit state. Times are rational
seconds. The unread strategy_weights table and the thread handle are
runtime-only and carry no modelled behavior. -/
structure Discovery where
  target_queue_size : Nat := 30
  discovery_batch_size : Nat := 5
  channel : List String := []
  is_running : Bool := false
  seed_tracks : List Track := []
  discovered_artists : Finset String := ∅
  discovery_strategies : List String := ["artist", "related"]
  last_discovery_time : ℚ := 0
  min_discovery_interval : ℚ := 10
  current_mood : String := "mixed"
  genre_hints : List String := []
  exploration : List (String × Nat) := []
deriving DecidableEq

/-- Freshly constructed BackgroundDiscovery() instance. -/
def disc0 : Discovery := {}

/-- BackgroundDiscovery.adjust_discovery_rate (auto_discovery.py lines
371-386) together with its printed output: the three known levels
update the low-water/batch/interval configuration as one unit, anything
else changes nothing, and the success line is printed for every input,
recognized or not - there is no error path. -/
def adjust_discovery_rate (rate : String) (d : Discovery) : Discovery × List String :=
  let d1 :=
    if rate = "conservative" then
      { d with target_queue_size := 15, discovery_batch_size := 3, min_discovery_interval := 15 }
    else if rate = "moderate" then
      { d with target_queue_size := 30, discovery_batch_size := 5, min_discovery_interval := 10 }
    else if rate = "aggressive" then
      { d with target_queue_size := 50, discovery_batch_size := 8, min_discovery_interval := 5 }
    else d
  (d1, ["Discovery rate set to " ++ rate])

/-- Modelled from the spec: section 7(e) requires configuration misuse
(unknown shuffle mode, unknown rate level) to be "rejected with a clear
invalid-argument signal; state unchanged". The source has no invalid-
argument signal to embed, so this definition follows the spec's words -
ok on a recognized mode, an error value otherwise - to be compared with
set_shuffle_mode as translated from the source. -/
def set_shuffle_mode_spec (o : Rand) (mode : String) (q : Queue) : Except String Queue :=
  if mode = "smart" ∨ mode = "random" ∨ mode = "sequential" ∨ mode = "mood" then
    Except.ok (set_shuffle_mode o mode q)
  else Except.error "invalid shuffle mode"

/-- C9 counterexample: on the unknown mode "bogus" the spec demands an
invalid-argument error, but the source function returns normally (its
behavior, lifted to the same signal type, is Except.ok of the unchanged
queue); adjust_discovery_rate even prints its success message for the
unknown rate "bogus". -/
theorem invalid_config_no_signal :
    set_shuffle_mode_spec oracleZero "bogus" queueABC = Except.error "invalid shuffle mode" ∧
    Except.ok (set_shuffle_mode oracleZero "bogus" queueABC)
      ≠ set_shuffle_mode_spec oracleZero "bogus" queueABC ∧
    (adjust_discovery_rate "bogus" disc0).2 = ["Discovery rate set to bogus"] := by
  refine ⟨rfl, ?_, rfl⟩
  intro h
  rw [set_shuffle_mode_spec] at h
  simp at h

/-- C9 (amended): an unknown shuffle mode or rate level is silently
ignored: the shuffle mode and the whole queue state are left unchanged,
the rate configuration is left unchanged, and no invalid-argument
signal of any kind is produced - adjust_discovery_rate still prints its
success message for the unknown level. -/
theorem invalid_config_silently_ignored (o : Rand) (mode rate : String)
    (q : Queue) (d : Discovery)
    (hm : ¬ (mode = "smart" ∨ mode = "random" ∨ mode = "sequential" ∨ mode = "mood"))
    (hr : ¬ (rate = "conservative" ∨ rate = "moderate" ∨ rate = "aggressive")) :
    set_shuffle_mode o mode q = q ∧
    (adjust_discovery_rate rate d).1 = d ∧
    (adjust_discovery_rate rate d).2 = ["Discovery rate set to " ++ rate] := by
  push_neg at hr
  obtain ⟨hr1, hr2, hr3⟩ := hr
  refine ⟨?_, ?_, rfl⟩
  · rw [set_shuffle_mode, if_neg hm]
  · simp only [adjust_discovery_rate, hr1, hr2, hr3, if_false]

/-- C9 witness: the amended silent-ignore facts evaluated at the
unknown mode and rate "bogus". -/
theorem invalid_config_silently_ignored_witness :
    set_shuffle_mode oracleZero "bogus" queueABC = queueABC ∧
    (adjust_discovery_rate "bogus" disc0).1 = disc0 ∧
    (adjust_discovery_rate "bogus" disc0).2 = ["Discovery rate set to " ++ "bogus"] :=
  invalid_config_silently_ignored oracleZero "bogus" "bogus" queueABC disc0
    (by decide) (by decide)

/-- BackgroundDiscovery._trigger_discovery (auto_discovery.py lines
99-111): the rate check compares now against last_discovery_time,
which is updated by every attempt that passes the check - whether the
reason is then accepted into the channel or dropped because the
channel (capacity 3) is already full; the enqueue is non-blocking and
a full channel drops the trigger silently (queue.Full is swallowed). -/
def trigger_discovery (now : ℚ) (reason : String) (d : Discovery) : Discovery :=
  if now - d.last_discovery_time < d.min_discovery_interval then d
  else
    let d1 := { d with last_discovery_time := now }
    if d1.channel.length < 3 then { d1 with channel := d1.channel ++ [reason] } else d1

/-- BackgroundDiscovery.add_seed_track (auto_discovery.py lines 63-81),
the Scheduler.onTrackConsumed entry point: append to the bounded seed
window (deque maxlen 5), and - only inside the known-artist branch as
the source indents it - record the artist, ensure an exploration-depth
entry, and fire the low-queue trigger when the observed total queue
depth is under 5. queueDepth is the total_tracks count read from the
shared smart queue; now is time.time(). -/
def add_seed_track (now : ℚ) (queueDepth : Nat) (t : Track) (d : Discovery) : Discovery :=
  let seeds0 := d.seed_tracks ++ [t]
  let seeds := if 5 < seeds0.length then seeds0.drop (seeds0.length - 5) else seeds0
  let d1 := { d with seed_tracks := seeds }
  match t.knownArtist with
  | some a =>
    let d2 := { d1 with discovered_artists := insert a d1.discovered_artists,
                        exploration := setDefaultA a 0 d1.exploration }
    if queueDepth < 5 then trigger_discovery now "low_queue" d2 else d2
  | none => d1

theorem trigger_rate_limited (d : Discovery) (now ta : ℚ) (r : String)
    (hta : ta ≤ d.last_discovery_time)
    (hiv : now - ta < d.min_discovery_interval) :
    (trigger_discovery now r d).channel = d.channel := by
  rw [trigger_discovery, if_pos (by linarith)]

theorem trigger_full_dropped (d : Discovery) (now : ℚ) (r : String)
    (hfull : 3 ≤ d.channel.length) :
    (trigger_discovery now r d).channel = d.channel := by
  unfold trigger_discovery
  dsimp only
  split_ifs with h1 h2
  · rfl
  · omega
  · rfl

theorem trigger_accepted_time (d : Discovery) (now : ℚ) (r : String)
    (hch : (trigger_discovery now r d).channel ≠ d.channel) :
    (trigger_discovery now r d).last_discovery_time = now := by
  unfold trigger_discovery at hch ⊢
  dsimp only at hch ⊢
  split_ifs at hch ⊢ with h1 h2
  · exact absurd rfl hch
  · rfl
  · rfl

theorem trigger_channel_le (d : Discovery) (now : ℚ) (r : String) :
    (trigger_discovery now r d).channel.length ≤ d.channel.length + 1 := by
  unfold trigger_discovery
  dsimp only
  split_ifs <;> simp

theorem trigger_interval_fixed (d : Discovery) (now : ℚ) (r : String) :
    (trigger_discovery now r d).min_discovery_interval = d.min_discovery_interval := by
  unfold trigger_discovery
  dsimp only
  split_ifs <;> rfl

theorem add_seed_interval_fixed (now : ℚ) (dep : Nat) (t : Track) (d : Discovery) :
    (add_seed_track now dep t d).min_discovery_interval = d.min_discovery_interval := by
  unfold add_seed_track trigger_discovery
  cases hka : t.knownArtist <;> dsimp only <;> split_ifs <;> rfl

theorem add_seed_channel_le (now : ℚ) (dep : Nat) (t : Track) (d : Discovery) :
    (add_seed_track now dep t d).channel.length ≤ d.channel.length + 1 := by
  unfold add_seed_track trigger_discovery
  cases hka : t.knownArtist
  · dsimp only
    simp
  · dsimp only
    split_ifs <;> simp

theorem add_seed_changed_time (now : ℚ) (dep : Nat) (t : Track) (d : Discovery)
    (hch : (add_seed_track now dep t d).channel ≠ d.channel) :
    (add_seed_track now dep t d).last_discovery_time = now := by
  revert hch
  unfold add_seed_track trigger_discovery
  cases hka : t.knownArtist
  · intro hch
    dsimp only at hch ⊢
    exact absurd rfl hch
  · intro hch
    dsimp only at hch ⊢
    split_ifs at hch ⊢ <;>
      first
        | rfl
        | exact absurd rfl hch

theorem add_seed_rate_limited (now : ℚ) (dep : Nat) (t : Track) (d : Discovery)
    (hiv : now - d.last_discovery_time < d.min_discovery_interval) :
    (add_seed_track now dep t d).channel = d.channel := by
  unfold add_seed_track trigger_discovery
  cases hka : t.knownArtist
  all_goals dsimp only
  all_goals split_ifs with h1 h2 h3
  all_goals first
    | rfl
    | (exfalso; exact absurd hiv h2)
    | (exfalso; omega)

/-- C3: a trigger invocation leaves the channel unchanged when less
than the minimum interval has passed since any time at or before
last_discovery_time - the time of the last accepted trigger in
particular, since an accepted trigger records its time there - and
also when the capacity-3 channel is already full; consequently two
onTrackConsumed calls less than the interval apart (one second versus
ten, say), whatever the queue depth and the consumed tracks, add at
most one trigger to the channel between them. -/
theorem trigger_rate_limit_props :
    (∀ (d : Discovery) (now ta : ℚ) (r : String),
      ta ≤ d.last_discovery_time → now - ta < d.min_discovery_interval →
      (trigger_discovery now r d).channel = d.channel) ∧
    (∀ (d : Discovery) (now : ℚ) (r : String),
      3 ≤ d.channel.length →
      (trigger_discovery now r d).channel = d.channel) ∧
    (∀ (d : Discovery) (now : ℚ) (r : String),
      (trigger_discovery now r d).channel ≠ d.channel →
      (trigger_discovery now r d).last_discovery_time = now) ∧
    (∀ (d : Discovery) (t1 t2 : ℚ) (dep1 dep2 : Nat) (tr1 tr2 : Track),
      t2 - t1 < d.min_discovery_interval →
      (add_seed_track t2 dep2 tr2 (add_seed_track t1 dep1 tr1 d)).channel.length
        ≤ d.channel.length + 1) := by
  refine ⟨trigger_rate_limited, trigger_full_dropped, trigger_accepted_time, ?_⟩
  intro d t1 t2 dep1 dep2 tr1 tr2 hiv
  by_cases hch : (add_seed_track t1 dep1 tr1 d).channel = d.channel
  · have h2 := add_seed_channel_le t2 dep2 tr2 (add_seed_track t1 dep1 tr1 d)
    rw [hch] at h2
    exact h2
  · have hlast := add_seed_changed_time t1 dep1 tr1 d hch
    have h1 := add_seed_channel_le t1 dep1 tr1 d
    have h2 : (add_seed_track t2 dep2 tr2 (add_seed_track t1 dep1 tr1 d)).channel
        = (add_seed_track t1 dep1 tr1 d).channel := by
      refine add_seed_rate_limited t2 dep2 tr2 _ ?_
      rw [hlast, add_seed_interval_fixed]
      exact hiv
    rw [h2]
    exact h1

/-- Discovery state with a full trigger channel. -/
def discFull : Discovery := { channel := ["a", "b", "c"] }

/-- C3 witness: the rate-limit facts evaluated at concrete states and
times (fresh scheduler, interval 10): a trigger 5 seconds after time 0
is dropped, a full channel drops even a late trigger, an accepted
trigger records its time, and two seed reports one second apart add at
most one trigger. -/
theorem trigger_rate_limit_props_witness :
    (trigger_discovery 5 "low_queue" disc0).channel = disc0.channel ∧
    (trigger_discovery 100 "low_queue" discFull).channel = discFull.channel ∧
    (trigger_discovery 100 "low_queue" disc0).last_discovery_time = 100 ∧
    (add_seed_track 51 0 trackIdA (add_seed_track 50 0 trackIdA disc0)).channel.length
      ≤ disc0.channel.length + 1 := by
  refine ⟨?_, ?_, ?_, ?_⟩
  · exact trigger_rate_limit_props.1 disc0 5 0 "low_queue" (by norm_num [disc0]) (by norm_num [disc0])
  · exact trigger_rate_limit_props.2.1 discFull 100 "low_queue" (by norm_num [discFull])
  · refine trigger_rate_limit_props.2.2.1 disc0 100 "low_queue" ?_
    intro h
    rw [trigger_discovery] at h
    norm_num [disc0] at h
  · exact trigger_rate_limit_props.2.2.2 disc0 50 51 0 0 trackIdA trackIdA (by norm_num [disc0])

/-- Stable insertion into a list sorted descending by a natural key,
matching Python's stable sorted(key=..., reverse=True). -/
def insertDescBy {α : Type} (key : α → Nat) (x : α) : List α → List α
  | [] => [x]
  | y :: ys => if key y ≤ key x then x :: y :: ys else y :: insertDescBy key x ys

def sortDescBy {α : Type} (key : α → Nat) : List α → List α
  | [] => []
  | x :: xs => insertDescBy key x (sortDescBy key xs)

/-- First-occurrence deduplication, matching the key order of a Python
dict built by insertion. -/
def dedupFirst : List String → List String
  | [] => []
  | x :: xs => x :: dedupFirst (xs.filter (fun y => !(y == x)))
termination_by l => l.length
decreasing_by
  exact Nat.lt_succ_of_le (List.length_filter_le _ _)

/-- Keyword-bucket genre inference for one normalized, lowered title
(_infer_genres_from_tracks, auto_discovery.py lines 241-257). -/
def genre_of_title (title : String) : String :=
  if ["rock", "metal", "punk"].any (fun w => strContains title w) then "rock"
  else if ["jazz", "blues", "swing"].any (fun w => strContains title w) then "jazz"
  else if ["electronic", "edm", "techno", "house"].any (fun w => strContains title w) then
    "electronic"
  else if ["folk", "acoustic", "country"].any (fun w => strContains title w) then "folk"
  else if ["classical", "orchestra", "symphony"].any (fun w => strContains title w) then
    "classical"
  else if ["hip hop", "rap", "beats"].any (fun w => strContains title w) then "hip hop"
  else if ["indie", "alternative"].any (fun w => strContains title w) then "indie"
  else "alternative"

/-- BackgroundDiscovery._infer_genres_from_tracks (auto_discovery.py
lines 230-264): bucket every metadata-bearing track's lowered
normalized title, then return the up-to-three most frequent genres,
ties in first-seen order (Python dict key order under a stable
descending sort by count). -/
def infer_genres (tracks : List Track) : List String :=
  let genres := tracks.foldl (fun acc t =>
    match t.metadata with
    | none => acc
    | some m => acc ++ [genre_of_title (strLower m.normalized_title)]) []
  (sortDescBy (fun g => genres.count g) (dedupFirst genres)).take 3

/-- BackgroundDiscovery._choose_discovery_strategy (auto_discovery.py
lines 160-181): mixed without seeds; artist while the latest seed's
artist is under exploration depth 3; related while fewer than ten
artists are known; genre otherwise. -/
def choose_discovery_strategy (d : Discovery) : String :=
  match d.seed_tracks.getLast? with
  | none => "mixed"
  | some recent =>
    match recent.knownArtist with
    | some a =>
      if (lookupA a d.exploration).getD 0 < 3 then "artist"
      else if d.discovered_artists.card < 10 then "related"
      else "genre"
    | none =>
      if d.discovered_artists.card < 10 then "related"
      else "genre"

/-- BackgroundDiscovery._generate_discovery_queries (auto_discovery.py
lines 183-228): over the last three seeds, the artist strategy emits
raw artist names and increments each used artist's exploration depth,
the related strategy emits "artists like X", the genre strategy three
templated queries per inferred genre; the final random.shuffle is the
oracle shuffle, and at most five queries are kept. Returns the
queries with the updated scheduler state. -/
def generate_discovery_queries (o : Rand) (strategy : String) (d : Discovery) :
    List String × Discovery :=
  if d.seed_tracks.isEmpty then
    (["popular music", "indie songs", "alternative rock"], d)
  else
    let recent := d.seed_tracks.drop (d.seed_tracks.length - 3)
    let qd :=
      if strategy = "artist" then
        recent.foldl (fun acc t =>
          match t.knownArtist with
          | some a =>
            (acc.1 ++ [a],
             { acc.2 with
               exploration := setA a ((lookupA a acc.2.exploration).getD 0 + 1)
                 acc.2.exploration })
          | none => acc) ([], d)
      else if strategy = "related" then
        (recent.foldl (fun acc t =>
          match t.knownArtist with
          | some a => acc ++ ["artists like " ++ a]
          | none => acc) [], d)
      else if strategy = "genre" then
        ((infer_genres recent).foldl (fun acc g =>
          acc ++ [g ++ " music", "best " ++ g ++ " songs", g ++ " playlist"]) [], d)
      else ([], d)
    ((oracleShuffle (o.shuf 0) 0 qd.1).take 5, qd.2)

/-- External search/resolution provider (the music_discovery engine of
discovery.py, outside the scheduler core): search(query, strategy,
limit) returns candidate records, resolve(id) the playback resource
locator with "" for absent. Worker theorems quantify over every
provider. -/
structure Provider where
  search : String → String → Nat → List Track
  resolve : String → String

/-- Accepting loop of _filter_discovered_tracks (auto_discovery.py
lines 294-319): drop duplicates (by id against the growing set) and
candidates under the 0.4 quality floor, resolve the audio url through
the provider and drop tracks without one; accepted tracks are tagged
auto_discovered and their ids join the set. -/
def filterDiscoveredAux (p : Provider) : Finset String → List Track → List Track
  | _, [] => []
  | existing, t :: ts =>
    if (match t.id with
        | some i => decide (i ∈ existing)
        | none => false) || decide (t.quality_score < 2/5) then
      filterDiscoveredAux p existing ts
    else
      match t.id with
      | none => filterDiscoveredAux p existing ts
      | some i =>
        if p.resolve i = "" then filterDiscoveredAux p existing ts
        else
          { t with audio_url := p.resolve i, auto_discovered := true } ::
            filterDiscoveredAux p (insert i existing) ts

/-- BackgroundDiscovery._filter_discovered_tracks (auto_discovery.py
lines 279-319): the duplicate set starts from the truthy ids of the
current queue tiers and the seed window. -/
def filter_discovered (p : Provider) (q : Queue) (d : Discovery) (tracks : List Track) :
    List Track :=
  let existing : Finset String :=
    (((q.main ++ q.priority) ++ d.seed_tracks).filterMap
      (fun t => match t.id with
        | some i => if i = "" then none else some i
        | none => none)).toFinset
  filterDiscoveredAux p existing tracks

def general_queries : List String :=
  ["popular songs 2024", "indie rock", "alternative music", "chill music", "acoustic songs"]

/-- BackgroundDiscovery._discover_without_context (auto_discovery.py
lines 321-340): the context-free bootstrap round over the fixed
general query set, filtered and added to the main tier. -/
def discover_without_context (p : Provider) (o : Rand) (d : Discovery) (q : Queue) :
    Discovery × Queue :=
  let new_tracks := general_queries.foldl (fun acc qu => acc ++ p.search qu "mixed" 3) []
  if new_tracks.isEmpty then (d, q)
  else
    let filtered := filter_discovered p q d new_tracks
    if filtered.isEmpty then (d, q)
    else (d, add_tracks o filtered false q)

/-- BackgroundDiscovery._perform_discovery (auto_discovery.py lines
134-158): bootstrap without context when no seeds exist, otherwise
choose a strategy, generate queries (updating exploration depths),
dispatch only the first query, cap the batch at discovery_batch_size,
filter and push survivors into the main tier. The reason string is
carried but unused, as in the source. -/
def perform_discovery (p : Provider) (o : Rand) (reason : String) (d : Discovery) (q : Queue) :
    Discovery × Queue :=
  if d.seed_tracks.isEmpty then discover_without_context p o d q
  else
    let strategy := choose_discovery_strategy d
    let qd := generate_discovery_queries o strategy d
    let new_tracks :=
      match qd.1 with
      | [] => []
      | qu :: _ => (p.search qu strategy 3).take qd.2.discovery_batch_size
    if new_tracks.isEmpty then (qd.2, q)
    else
      let filtered := filter_discovered p q qd.2 new_tracks
      if filtered.isEmpty then (qd.2, q)
      else (qd.2, add_tracks o filtered false q)

/-- BackgroundDiscovery._check_queue_health (auto_discovery.py lines
342-358): would fire the periodic_check trigger when the observed
queue depth is under 3 and prune the exploration map above 50 entries
to the 20 deepest. NO code path in the repository ever calls this
method - the worker's empty-channel branch (lines 126-129) only
sleeps and continues, and no other call site exists in src - so it is
dead code. -/
def check_queue_health (now : ℚ) (queueDepth : Nat) (d : Discovery) : Discovery :=
  let d1 := if queueDepth < 3 then trigger_discovery now "periodic_check" d else d
  if 50 < d1.exploration.length then
    { d1 with exploration := (sortDescBy (fun pr => pr.2) d1.exploration).take 20 }
  else d1

/-- One iteration of BackgroundDiscovery._discovery_worker
(auto_discovery.py lines 113-132) over the scheduler state paired with
the shared smart queue: dequeue a trigger and run a discovery round
(or exit when the running flag dropped); on queue.Empty the loop only
sleeps five seconds and continues - it runs no health check and
mutates nothing on that path. -/
def worker_step (p : Provider) (o : Rand) (s : Discovery × Queue) : Discovery × Queue :=
  match s.1.channel with
  | [] => s
  | r :: rest =>
    if s.1.is_running then perform_discovery p o r { s.1 with channel := rest } s.2
    else ({ s.1 with channel := rest }, s.2)

/-- C2: with an empty trigger channel and onTrackConsumed never
invoked, every number of worker iterations leaves the scheduler state
and the queue exactly unchanged - no trigger is ever enqueued, the
bootstrap discovery never runs, and the main tier stays empty forever.
The periodic health check the claim relies on, _check_queue_health, is
never called from anywhere in the repository: the worker's
empty-channel branch only sleeps. -/
theorem worker_never_discovers_without_seeds (p : Provider) (o : Rand)
    (s : Discovery × Queue) (hch : s.1.channel = []) :
    ∀ n : Nat, (worker_step p o)^[n] s = s := by
  have hstep : worker_step p o s = s := by
    unfold worker_step
    rw [hch]
  intro n
  induction n with
  | zero => rfl
  | succ m ih => rw [Function.iterate_succ_apply, hstep, ih]

/-- Provider whose search would happily return a track, showing the
starvation is the scheduler's, not the provider's. -/
def providerStub : Provider :=
  { search := fun _ _ _ => [trackIdA], resolve := fun _ => "url" }

/-- C2 witness: a thousand worker iterations on a freshly started
scheduler with queue depth 0 change nothing at all. -/
theorem worker_never_discovers_without_seeds_witness :
    (worker_step providerStub oracleZero)^[1000] (disc0, queueEmptySeq)
      = (disc0, queueEmptySeq) :=
  worker_never_discovers_without_seeds providerStub oracleZero (disc0, queueEmptySeq) rfl 1000

end Youterm
